import Mathlib

/-!
Verification development for two modules of an NLU pipeline:
* `count_vectors_featurizer.py` (CountVectorsFeaturizer: custom tokenizer,
  vocabulary fitting/transform orchestration, sequence featurization,
  feature write-back policy, train/process error handling), and
* `bilou_utils.py` (BILOU tag mapping from character offsets, tag-id
  dictionary construction, tag-to-id conversion).

The Python code is shallowly embedded: pure functions become Lean functions,
the featurizer's mutable state (`self.vect`, `self.is_test_data_featurized`)
is threaded explicitly, exceptions become `Option`/`Except` results.
Character offsets and counts are `Nat`; the dense sequence padding sentinel
is `(-1 : Int)` as in the int32 numpy array.

The sklearn `CountVectorizer` itself is an external library; its behaviour
(document-frequency-filtered vocabulary over the custom tokenizer's tokens,
sorted term index assignment, count transform, `ValueError` on an empty
vocabulary) is modelled from the spec at the defaults the code passes it
(word analyzer, unigrams, no stop words, absolute integer `min_df`,
`max_df` at its default 1.0, no `max_features` cap).
-/

/-! ## Character-level string utilities

Python operates on str; we operate on `List Char`.  `\w` of the token
pattern is modelled for ASCII word characters (letters, digits, underscore).
-/

/-- A regex word character (`\w`): alphanumeric or underscore (ASCII). -/
def isWordChar (c : Char) : Bool := c.isAlphanum || c = '_'

/-- Python `str.lower()` restricted to ASCII case folding. -/
def lowerStr (s : String) : String := ⟨s.data.map Char.toLower⟩

/-- Emit one maximal word-character run for `re.sub(r"\b[0-9]+\b", "__NUMBER__", text)`:
a run consisting only of digits is replaced by the literal `__NUMBER__`
(the `\b` boundaries of the regex are exactly the edges of a maximal run).
`acc` is the run collected so far, in reverse. -/
def emitRun (acc : List Char) : List Char :=
  let run := acc.reverse
  if run = [] then [] else if run.all Char.isDigit then "__NUMBER__".data else run

/-- Walk the text splitting it into maximal word-character runs and the
non-word characters between them, substituting digit-only runs. -/
def subNumberAux : List Char → List Char → List Char
  | acc, [] => emitRun acc
  | acc, c :: cs =>
    if isWordChar c then subNumberAux (c :: acc) cs
    else emitRun acc ++ c :: subNumberAux [] cs

/-- `re.sub(r"\b[0-9]+\b", "__NUMBER__", text)` from `CountVectorsFeaturizer._tokenizer`. -/
def reSubNumber (s : String) : String := ⟨subNumberAux [] s.data⟩

/-- Emit one token for `re.findall` of the default token pattern
`(?u)\b\w\w+\b`: a maximal word-character run of length at least two. -/
def emitTok (acc : List Char) : List String :=
  let run := acc.reverse
  if 2 ≤ run.length then [⟨run⟩] else []

/-- Walk the text extracting the maximal word-character runs of length ≥ 2. -/
def findallAux : List Char → List Char → List String
  | acc, [] => emitTok acc
  | acc, c :: cs =>
    if isWordChar c then findallAux (c :: acc) cs
    else emitTok acc ++ findallAux [] cs

/-- `token_pattern.findall(text)` for the default pattern `(?u)\b\w\w+\b`. -/
def findallWordTokens (s : String) : List String := findallAux [] s.data

/-- Emit one whitespace-separated field for Python `str.split()` (empty runs
are dropped). -/
def emitField (acc : List Char) : List String :=
  if acc = [] then [] else [⟨acc.reverse⟩]

/-- Walk the text splitting on whitespace. -/
def splitWsAux : List Char → List Char → List String
  | acc, [] => emitField acc
  | acc, c :: cs =>
    if c.isWhitespace then emitField acc ++ splitWsAux [] cs
    else splitWsAux (c :: acc) cs

/-- Python `text.split()` (used by `_get_text_sequence`). -/
def splitWs (s : String) : List String := splitWsAux [] s.data

/-- Python `' '.join(items)`. -/
def joinSpace (l : List String) : String :=
  ⟨(List.intersperse [' '] (l.map String.data)).flatten⟩

/-- Character comparison by code point (Python string comparison is by
code point). -/
def charLt (a b : Char) : Bool := a.toNat < b.toNat

/-- Lexicographic order on strings by code points, as Python `sorted` and
sklearn's alphabetic vocabulary ordering use. -/
def strLeChars : List Char → List Char → Bool
  | [], _ => true
  | _ :: _, [] => false
  | a :: as, b :: bs =>
    if charLt a b then true else if charLt b a then false else strLeChars as bs

/-- `s` sorts no later than `t`. -/
def strLe (s t : String) : Bool := strLeChars s.data t.data

/-- Insert into an already sorted list of strings. -/
def insertStr (s : String) : List String → List String
  | [] => [s]
  | t :: ts => if strLe s t then s :: t :: ts else t :: insertStr s ts

/-- Sort a list of strings lexicographically (Python `sorted`, sklearn's
vocabulary index order). -/
def sortStr (l : List String) : List String := l.foldr insertStr []

/-- Deduplicate keeping first occurrences (Python `set` collection; every
use site sorts afterwards, so ordering of the deduplication is irrelevant). -/
def dedupAux (seen : List String) : List String → List String
  | [] => []
  | x :: xs => if x ∈ seen then dedupAux seen xs else x :: dedupAux (x :: seen) xs

/-- Distinct elements of a list of strings. -/
def dedupStr (l : List String) : List String := dedupAux [] l

/-- Python list comprehension `[f(x) for x in l]` where `f` can raise:
`none` when any element raises. -/
def optionMapList (f : α → Option β) : List α → Option (List β)
  | [] => some []
  | a :: as =>
    match f a, optionMapList f as with
    | some b, some bs => some (b :: bs)
    | _, _ => none

/-! ## `CountVectorsFeaturizer._tokenizer`

The override installed as sklearn's `tokenizer=` callback
(`count_vectors_featurizer.py`, lines 169-189).  Its environment is the
component state: `self.OOV_token`, `self.OOV_words`, and whether
`self.vect` carries a trained `vocabulary_` (the `hasattr` test).  The
`vocab` argument below is `some v` exactly when
`hasattr(self.vect, "vocabulary_")` holds with vocabulary `v`; note that in
separate-vocabulary mode `self.vect` is a Python list, which never has the
attribute. -/
def tokenizer (oovToken : Option String) (vocab : Option (List String))
    (oovWords : List String) (text : String) : List String :=
  let text' := reSubNumber text
  let tokens := findallWordTokens text'
  match oovToken with
  | none => tokens
  | some oov =>
    if oov = "" then tokens  -- Python truthiness: empty OOV_token is falsy
    else
      match vocab with
      | some voc =>
        -- CountVectorizer is trained, process for prediction
        if oov ∈ voc then tokens.map (fun t => if t ∈ voc then t else oov)
        else tokens
      | none =>
        -- CountVectorizer is not trained, process for train
        if oovWords ≠ [] then tokens.map (fun t => if t ∈ oovWords then oov else t)
        else tokens

/-! ## Data model

`Message`/training example container (opaque key-value store in the source;
the fields this core reads and writes become optional fields, `none`
modelling an absent key, for which Python `message.get` returns `None`). -/

/-- A token: text plus half-open character offsets.  `stop` models the
source's `end` attribute (exclusive offset). -/
structure Token where
  text : String
  start : Nat
  stop : Nat
deriving DecidableEq, Inhabited

/-- A feature value as set on a message, tagged by the numpy/scipy shape the
source produces: a dense count row (`toarray`-ed bag of words), a sparse
count row, a dense padded token-sequence matrix, a sparse unpadded
token-sequence matrix, or the one-element list of sparse sequence matrices
that `process` stores in sparse sequence mode. -/
inductive Feat where
  | vec (v : List Nat)
  | sparseVec (v : List Nat)
  | seqDense (m : List (List Int))
  | seqSparse (m : List (List Nat))
  | seqSparseBatch (ms : List (List (List Nat)))
deriving DecidableEq, Inhabited

/-- The message/training-example object, restricted to the fields this core
touches.  `spacyDoc` holds the lemmas of the lemmatized-token annotation. -/
structure Msg where
  text : String
  tokens : Option (List Token)
  spacyDoc : Option (List String)
  intentTokens : Option (List Token)
  responseTokens : Option (List Token)
  entities : List (Nat × Nat × String)
  bilouEntities : Option (List String)
  textFeatures : Option Feat
  intentFeatures : Option Feat
  responseFeatures : Option Feat
deriving DecidableEq, Inhabited

/-- `CountVectorsFeaturizer._get_message_text`: prefer lemmas of the spacy
doc, then token texts, then the raw text (Python truthiness: an empty doc or
token list falls through). -/
def getMessageText (m : Msg) : String :=
  if m.spacyDoc.getD [] ≠ [] then joinSpace (m.spacyDoc.getD [])
  else if m.tokens.getD [] ≠ [] then joinSpace ((m.tokens.getD []).map Token.text)
  else m.text

/-- `CountVectorsFeaturizer._get_message_intent`:
`' '.join([t.text for t in message.get("intent_tokens")])`.  When the
message has no `intent_tokens` key, `message.get` yields `None` and the
iteration raises `TypeError`; the raise is modelled as `none`. -/
def getMessageIntent (m : Msg) : Option String :=
  match m.intentTokens with
  | none => none
  | some ts => some (joinSpace (ts.map Token.text))

/-- `CountVectorsFeaturizer._get_message_response`: a single space when the
`response_tokens` key is absent (an explicit `is None` check in the source),
otherwise the space-joined token texts. -/
def getMessageResponse (m : Msg) : String :=
  match m.responseTokens with
  | none => " "
  | some ts => joinSpace (ts.map Token.text)

/-! ## The vectorizer

Modelled from the spec: sklearn's `CountVectorizer` as configured by the
featurizer — builds a document-frequency-filtered vocabulary over the
custom tokenizer's output, with term indices assigned in sorted order, and
raises `ValueError` when the vocabulary comes out empty; `transform`
produces the count of each vocabulary term in the document.  Configuration
is restricted to the knobs the claims exercise (`lowercase`, absolute
`min_df`, OOV marker and word list); the remaining sklearn parameters are
fixed at the defaults the component passes. -/
structure CV where
  lowercase : Bool
  min_df : Nat
  oovToken : Option String
  oovWords : List String
  vocab : Option (List String)  -- `vocabulary_`: `none` while unfitted
deriving DecidableEq, Inhabited

/-- sklearn's preprocessing step at the component's defaults: lowercasing. -/
def CV.preprocess (cv : CV) (doc : String) : String :=
  if cv.lowercase then lowerStr doc else doc

/-- sklearn's analyzer at `analyzer="word"` with the custom tokenizer and
unigram range: preprocess then tokenize.  `tokVis` is the vocabulary the
tokenizer's `hasattr(self.vect, "vocabulary_")` test sees (see `tokenizer`). -/
def CV.analyze (cv : CV) (tokVis : Option (List String)) (doc : String) : List String :=
  tokenizer cv.oovToken tokVis cv.oovWords (cv.preprocess doc)

/-- Document frequency of a term in a tokenized corpus. -/
def docFreq (tokLists : List (List String)) (t : String) : Nat :=
  (tokLists.filter (fun d => t ∈ d)).length

/-- Modelled from the spec: `CountVectorizer.fit` — learn the sorted,
`min_df`-filtered vocabulary; `Except.error ()` is the `ValueError` raised
on an empty vocabulary. -/
def CV.fit (cv : CV) (tokVis : Option (List String)) (docs : List String) :
    Except Unit CV :=
  let tokLists := docs.map (cv.analyze tokVis)
  let kept := (dedupStr tokLists.flatten).filter
    (fun t => cv.min_df ≤ docFreq tokLists t)
  if kept = [] then .error ()
  else .ok { cv with vocab := some (sortStr kept) }

/-- Modelled from the spec: `CountVectorizer.transform` on one document —
the count vector over the learned vocabulary, in index order. -/
def CV.transform (cv : CV) (tokVis : Option (List String)) (doc : String) :
    List Nat :=
  (cv.vocab.getD []).map (fun term => (cv.analyze tokVis doc).count term)

/-! ## The featurizer component -/

/-- The component configuration surface exercised by the claims (the
remaining sklearn pass-throughs are fixed at their defaults, see `CV`). -/
structure Config where
  sequence : Bool
  use_shared_vocab : Bool
  sparse : Bool
  lowercase : Bool
  min_df : Nat
  OOV_token : Option String
  OOV_words : List String
deriving DecidableEq, Inhabited

/-- `CountVectorsFeaturizer._load_OOV_params`: discard `OOV_words` when no
(truthy) `OOV_token` is given; lowercase both when case folding is on. -/
def loadOOVParams (cfg : Config) : Option String × List String :=
  let tokTruthy : Bool := match cfg.OOV_token with | some s => s != "" | none => false
  let ws := if cfg.OOV_words ≠ [] ∧ ¬tokTruthy then [] else cfg.OOV_words
  if cfg.lowercase ∧ tokTruthy then (cfg.OOV_token.map lowerStr, ws.map lowerStr)
  else (cfg.OOV_token, ws)

/-- A fresh `CountVectorizer` as `train` constructs it from the component
configuration. -/
def initCV (cfg : Config) : CV :=
  { lowercase := cfg.lowercase
    min_df := cfg.min_df
    oovToken := (loadOOVParams cfg).1
    oovWords := (loadOOVParams cfg).2
    vocab := none }

/-- `self.vect`: `None` before training or after a failed fit, one shared
vectorizer, or the two-element list `[vect0, vect1]` of separate-vocabulary
mode. -/
inductive VectState where
  | noneV
  | shared (cv : CV)
  | pair (cv0 cv1 : CV)
deriving DecidableEq, Inhabited

/-- Largest whitespace-token count in a batch (`max([len(tokens) ...])`);
the caller guards against the empty batch, on which Python `max` raises. -/
def maxTokenLen (toks : List (List String)) : Nat :=
  toks.foldr (fun t a => max t.length a) 0

/-- `CountVectorsFeaturizer._create_sequence`, sparse branch: one unpadded
sparse matrix per example, a count row per whitespace token. -/
def createSequenceSparse (cv : CV) (vis : Option (List String))
    (texts : List String) : List (List (List Nat)) :=
  (texts.map splitWs).map (fun ts => ts.map (fun w => cv.transform vis w))

/-- `CountVectorsFeaturizer._create_sequence`, dense branch: a
`[num_exs, seq_len, feature_len]` array initialised to the sentinel `-1`,
with each example's first `len(tokens)` rows overwritten by its count rows.
`Except.error ()` is the `ValueError` raised by `max` on an empty batch. -/
def createSequenceDense (cv : CV) (vis : Option (List String))
    (texts : List String) : Except Unit (List (List (List Int))) :=
  if texts = [] then .error ()
  else
    let featureLen := (cv.vocab.getD []).length
    let toks := texts.map splitWs
    let seqLen := maxTokenLen toks
    .ok (toks.map (fun ts =>
      ts.map (fun w => (cv.transform vis w).map Int.ofNat) ++
        List.replicate (seqLen - ts.length) (List.replicate featureLen (-1))))

/-- Wrap a transformed count row the way the non-sequence branches store it:
dense (`toarray`) or sparse (`sort_indices`, a no-op on the count model). -/
def wrapBag (cfg : Config) (v : List Nat) : Feat :=
  if cfg.sparse then Feat.sparseVec v else Feat.vec v

/-- Modelled from the spec: the base `Featurizer`'s
`_combine_with_existing_text_features` — concatenate (`np.hstack`) the new
dense vector onto an already-present dense vector, else just the new
features.  Only dense non-sequence code paths call it, so only the dense
vector case is given meaning. -/
def combineWithExistingTextFeatures (old : Option Feat) (fNew : Feat) : Feat :=
  match old, fNew with
  | some (Feat.vec o), Feat.vec n => Feat.vec (o ++ n)
  | _, _ => fNew

/-- The per-example body of `train`'s write-back loop (lines 359-371): in
dense non-sequence mode `text_features` is combined with any existing value;
in every other mode it is plainly set; `intent_features` and
`response_features` are always plainly set. -/
def setOne (cfg : Config) (m : Msg) (x y r : Feat) : Msg :=
  let m1 :=
    if ¬cfg.sequence ∧ ¬cfg.sparse then
      { m with textFeatures := some (combineWithExistingTextFeatures m.textFeatures x) }
    else
      { m with textFeatures := some x }
  { m1 with intentFeatures := some y, responseFeatures := some r }

/-- `train`'s write-back loop over the parallel example/feature lists (the
lists always have equal lengths at the call sites; the fall-through arm is
unreachable there). -/
def setFeatures (cfg : Config) : List Msg → List Feat → List Feat → List Feat → List Msg
  | m :: ms, x :: xs, y :: ys, r :: rs =>
    setOne cfg m x y r :: setFeatures cfg ms xs ys rs
  | ms, _, _, _ => ms

/-- The `try` block of `train` (lines 320-354): the four
sequence/shared-vocabulary mode combinations of fitting and transforming.
In separate-vocabulary mode `self.vect` is a list, so the tokenizer's
`hasattr` vocabulary view is `none` throughout (see `tokenizer`); in shared
mode the single vectorizer exposes its vocabulary to transforms that run
after its fit.  Note the separate non-sequence branch runs `fit_transform`
on vectorizer 1 twice: first on the intent corpus, then again on the
response corpus, re-fitting it. -/
def trainFit (cfg : Config) (lemExs lemInts lemResps : List String) :
    Except Unit (VectState × List Feat × List Feat × List Feat) :=
  match cfg.sequence, cfg.use_shared_vocab with
  | false, true =>
    match (initCV cfg).fit none (lemExs ++ lemInts ++ lemResps) with
    | .error e => .error e
    | .ok cv =>
      .ok (VectState.shared cv,
        lemExs.map (fun t => wrapBag cfg (cv.transform cv.vocab t)),
        lemInts.map (fun t => wrapBag cfg (cv.transform cv.vocab t)),
        lemResps.map (fun t => wrapBag cfg (cv.transform cv.vocab t)))
  | false, false =>
    match (initCV cfg).fit none lemExs with
    | .error e => .error e
    | .ok cv0 =>
      match (initCV cfg).fit none lemInts with
      | .error e => .error e
      | .ok cv1a =>
        match cv1a.fit none lemResps with
        | .error e => .error e
        | .ok cv1b =>
          .ok (VectState.pair cv0 cv1b,
            lemExs.map (fun t => wrapBag cfg (cv0.transform none t)),
            lemInts.map (fun t => wrapBag cfg (cv1a.transform none t)),
            lemResps.map (fun t => wrapBag cfg (cv1b.transform none t)))
  | true, true =>
    match (initCV cfg).fit none (lemExs ++ lemInts) with
    | .error e => .error e
    | .ok cv =>
      if cfg.sparse then
        .ok (VectState.shared cv,
          (createSequenceSparse cv cv.vocab lemExs).map Feat.seqSparse,
          (createSequenceSparse cv cv.vocab lemInts).map Feat.seqSparse,
          (createSequenceSparse cv cv.vocab lemResps).map Feat.seqSparse)
      else
        match createSequenceDense cv cv.vocab lemExs,
            createSequenceDense cv cv.vocab lemInts,
            createSequenceDense cv cv.vocab lemResps with
        | .ok x, .ok yi, .ok yr =>
          .ok (VectState.shared cv, x.map Feat.seqDense, yi.map Feat.seqDense,
            yr.map Feat.seqDense)
        | _, _, _ => .error ()
  | true, false =>
    match (initCV cfg).fit none lemExs with
    | .error e => .error e
    | .ok cv0 =>
      match (initCV cfg).fit none (lemInts ++ lemResps) with
      | .error e => .error e
      | .ok cv1 =>
        if cfg.sparse then
          .ok (VectState.pair cv0 cv1,
            (createSequenceSparse cv0 none lemExs).map Feat.seqSparse,
            (createSequenceSparse cv1 none lemInts).map Feat.seqSparse,
            (createSequenceSparse cv1 none lemResps).map Feat.seqSparse)
        else
          match createSequenceDense cv0 none lemExs,
              createSequenceDense cv1 none lemInts,
              createSequenceDense cv1 none lemResps with
          | .ok x, .ok yi, .ok yr =>
            .ok (VectState.pair cv0 cv1, x.map Feat.seqDense,
              yi.map Feat.seqDense, yr.map Feat.seqDense)
          | _, _, _ => .error ()

/-- `CountVectorsFeaturizer.train`: derive the three text channels, run the
fit/transform block, and either write features onto every example or — when
a fit raised `ValueError` — set `self.vect = None` and return with the
examples untouched.  The outer `none` is an uncaught `TypeError` from
`_get_message_intent` on an example without intent tokens. -/
def train (cfg : Config) (examples : List Msg) : Option (VectState × List Msg) :=
  match optionMapList getMessageIntent examples with
  | none => none
  | some lemInts =>
    let lemExs := examples.map getMessageText
    let lemResps := examples.map getMessageResponse
    match trainFit cfg lemExs lemInts lemResps with
    | .error _ => some (VectState.noneV, examples)
    | .ok (v, xs, ys, rs) => some (v, setFeatures cfg examples xs ys rs)

/-- The message-channel vectorizer `process` selects (`self.vect` shared, or
`self.vect[0]`).  Unreachable for `noneV`: `process` guards on it. -/
def vect0 : VectState → CV
  | .shared cv => cv
  | .pair cv0 _ => cv0
  | .noneV => default

/-- The intent/response-channel vectorizer `process` selects (`self.vect`
shared, or `self.vect[1]`). -/
def vect1 : VectState → CV
  | .shared cv => cv
  | .pair _ cv1 => cv1
  | .noneV => default

/-- The vocabulary the tokenizer's `hasattr(self.vect, "vocabulary_")` test
sees after training: the trained vocabulary in shared mode, nothing in
separate mode (a Python list has no `vocabulary_` attribute). -/
def visOf : VectState → Option (List String)
  | .shared cv => cv.vocab
  | _ => none

/-- What one `process` call returns and leaves behind: the (possibly
mutated) live message, the `is_test_data_featurized` flag, the featurized
test corpus returned out-of-band (the method's return value), and whether
the no-trained-vectorizer error was logged. -/
structure ProcessResult where
  message : Msg
  isTestDataFeaturized : Bool
  featurizedTestData : Option (List Msg)
  loggedError : Bool
deriving DecidableEq, Inhabited

/-- The test-corpus write-back loop of `process` (lines 414-416). -/
def setTestFeatures : List Msg → List Feat → List Feat → List Msg
  | m :: ms, y :: ys, r :: rs =>
    { m with intentFeatures := some y, responseFeatures := some r } ::
      setTestFeatures ms ys rs
  | ms, _, _ => ms

/-- The one-shot test-corpus featurization branch of `process` (lines
384-420): transform the test corpus's intent and response channels with the
intent/response vectorizer.  `none` models an exception escaping `process`
(a `TypeError` from `_get_message_intent`, or the `ValueError` of
`_create_sequence` on an empty batch — `process` has no `try`). -/
def processTest (cfg : Config) (v1 : CV) (vis : Option (List String))
    (td : List Msg) : Option (List Msg) :=
  match optionMapList getMessageIntent td with
  | none => none
  | some tIns =>
    let tResps := td.map getMessageResponse
    if ¬cfg.sequence then
      some (setTestFeatures td
        (tIns.map (fun t => wrapBag cfg (v1.transform vis t)))
        (tResps.map (fun t => wrapBag cfg (v1.transform vis t))))
    else
      if cfg.sparse then
        some (setTestFeatures td
          ((createSequenceSparse v1 vis tIns).map Feat.seqSparse)
          ((createSequenceSparse v1 vis tResps).map Feat.seqSparse))
      else
        match createSequenceDense v1 vis tIns, createSequenceDense v1 vis tResps with
        | .ok a, .ok b =>
          some (setTestFeatures td (a.map Feat.seqDense) (b.map Feat.seqDense))
        | _, _ => none

/-- The live-message featurization of `process` (lines 422-444).  In the
dense branches the source squeezes away the leading batch axis of size one;
the dense sequence result is therefore the single example's matrix (the
model keeps the matrix as-is when further axes of size one would also be
squeezed, a difference no claim observes).  In sparse sequence mode the
source stores the whole one-element list returned by `_create_sequence`. -/
def processMessageFeat (cfg : Config) (cv : CV) (vis : Option (List String))
    (msg : Msg) : Msg :=
  let text := getMessageText msg
  match cfg.sparse, cfg.sequence with
  | false, false =>
    { msg with textFeatures := some (combineWithExistingTextFeatures
        msg.textFeatures (Feat.vec (cv.transform vis text))) }
  | false, true =>
    { msg with textFeatures := some (Feat.seqDense
        (match createSequenceDense cv vis [text] with
         | .ok l => l.headD []
         | .error _ => [])) }
  | true, false =>
    { msg with textFeatures := some (Feat.sparseVec (cv.transform vis text)) }
  | true, true =>
    { msg with textFeatures := some (Feat.seqSparseBatch
        (createSequenceSparse cv vis [text])) }

/-- `CountVectorsFeaturizer.process`: with no trained vectorizer, log an
error and do nothing; otherwise run the one-shot test-corpus branch when a
test corpus is supplied and the flag is still clear, then featurize the live
message.  `none` models an exception escaping `process`. -/
def process (cfg : Config) (v : VectState) (flag : Bool) (msg : Msg)
    (testData : Option (List Msg)) : Option ProcessResult :=
  match v with
  | .noneV => some ⟨msg, flag, none, true⟩
  | _ =>
    match testData, flag with
    | some td, false =>
      match processTest cfg (vect1 v) (visOf v) td with
      | none => none
      | some td' =>
        some ⟨processMessageFeat cfg (vect0 v) (visOf v) msg, true, some td', false⟩
    | _, _ =>
      some ⟨processMessageFeat cfg (vect0 v) (visOf v) msg, flag, none, false⟩

/-! ## BILOU utilities (`bilou_utils.py`) -/

/-- `BILOU_PREFIXES`. -/
def bilouPrefixes : List String := ["B-", "I-", "U-", "L-"]

/-- `entity_name_from_tag`: strip a BILOU prefix when present. -/
def entityNameFromTag (tag : String) : String :=
  if (⟨tag.data.take 2⟩ : String) ∈ bilouPrefixes then ⟨tag.data.drop 2⟩ else tag

/-- A Python dict lookup where the dict was built by a comprehension with
possibly repeated keys: the last insertion wins. -/
def lastAssoc (l : List (Nat × Nat)) (p : Nat) : Option Nat :=
  l.foldl (fun acc kv => if kv.1 = p then some kv.2 else acc) none

/-- The `(offset, index)` pairs of the dict comprehensions
`{token.start: i ...}` / `{token.end: i ...}`, in insertion order. -/
def offsetPairs (f : Token → Nat) : List Token → Nat → List (Nat × Nat)
  | [], _ => []
  | t :: ts, i => (f t, i) :: offsetPairs f ts (i + 1)

/-- `start_pos_to_token_idx` lookup. -/
def startPosToTokenIdx (tokens : List Token) (p : Nat) : Option Nat :=
  lastAssoc (offsetPairs Token.start tokens 0) p

/-- `end_pos_to_token_idx` lookup. -/
def endPosToTokenIdx (tokens : List Token) (p : Nat) : Option Nat :=
  lastAssoc (offsetPairs Token.stop tokens 0) p

/-- `for i in range(lo, hi): bilou[i] = v`, unrolled on the count `hi - lo`. -/
def setRangeAux : List String → Nat → Nat → String → List String
  | l, _, 0, _ => l
  | l, lo, Nat.succ n, v => setRangeAux (l.set lo v) (lo + 1) n v

/-- Assign `v` to every index in `[lo, hi)`. -/
def setRange (l : List String) (lo hi : Nat) (v : String) : List String :=
  setRangeAux l lo (hi - lo) v

/-- `bilou_utils._handle_entities`: for each entity whose offsets both align
with token boundaries, write `U-`/`B-`/`I-`/`L-` tags; misaligned entities
are skipped. -/
def handleEntities (bilou : List String) (entities : List (Nat × Nat × String))
    (tokens : List Token) : List String :=
  entities.foldl (fun b ent =>
    match startPosToTokenIdx tokens ent.1, endPosToTokenIdx tokens ent.2.1 with
    | some i, some j =>
      if i = j then b.set i ("U-" ++ ent.2.2)
      else (setRange (b.set i ("B-" ++ ent.2.2)) (i + 1) j ("I-" ++ ent.2.2)).set j
        ("L-" ++ ent.2.2)
    | _, _ => b) bilou

/-- Membership in `bilou_utils._get_entity_positions`: is the character
position inside some entity span? -/
def inEntityPositions (entities : List (Nat × Nat × String)) (x : Nat) : Bool :=
  entities.any (fun ent => decide (ent.1 ≤ x ∧ x < ent.2.1))

/-- The inner loop of `_handle_not_an_entity`: does any character of the
token's range lie in the entity positions? -/
def tokenIntersects (entities : List (Nat × Nat × String)) (t : Token) : Bool :=
  (List.range' t.start (t.stop - t.start)).any (fun x => inEntityPositions entities x)

/-- `bilou_utils._handle_not_an_entity`: tokens that share no character with
any entity span get the `missing` tag; the rest keep their current tag.
(The source mutates `bilou[n]` per token `n`; `bilou` and `tokens` always
have equal length here, so the loop is a pointwise zip.) -/
def handleNotAnEntity (bilou : List String) (tokens : List Token)
    (entities : List (Nat × Nat × String)) (missing : String) : List String :=
  List.zipWith (fun b t => if tokenIntersects entities t then b else missing)
    bilou tokens

/-- `bilou_utils.bilou_tags_from_offsets` (the source defaults `missing` to
`"O"`; call sites here pass it explicitly). -/
def bilouTagsFromOffsets (tokens : List Token)
    (entities : List (Nat × Nat × String)) (missing : String) : List String :=
  handleNotAnEntity
    (handleEntities (List.replicate tokens.length "-") entities tokens)
    tokens entities missing

/-- The tags contributed to `build_tag_id_dict` by one training example:
Python skips examples whose `bilou_entities` is falsy (absent or empty). -/
def exampleBilouTags (m : Msg) : List String :=
  match m.bilouEntities with
  | some l => l
  | none => []

/-- `bilou_utils.build_tag_id_dict` as an association list in Python dict
insertion order: for the lexicographically sorted distinct prefix-stripped
labels (minus `"O"`), key `prefix + tag` gets id
`idx_label * len(BILOU_PREFIXES) + idx_prefix + 1`; finally `"O"` is
inserted with id `0`. -/
def buildTagIdDict (trainingExamples : List Msg) : List (String × Nat) :=
  let distinctTags := sortStr (dedupStr
    (((trainingExamples.flatMap exampleBilouTags).map entityNameFromTag).filter
      (fun t => t ≠ "O")))
  (distinctTags.enum.flatMap (fun p =>
    bilouPrefixes.enum.map (fun q =>
      (q.2 ++ p.2, p.1 * bilouPrefixes.length + q.1 + 1)))) ++ [("O", 0)]

/-- Counter-based id assignment, following the spec's words: "for each
label, in fixed order B, I, U, L, assign the next integer starting at 1". -/
def assignIds : List String → Nat → List (String × Nat)
  | [], _ => []
  | l :: ls, c =>
    ("B-" ++ l, c) :: ("I-" ++ l, c + 1) :: ("U-" ++ l, c + 2) ::
      ("L-" ++ l, c + 3) :: assignIds ls (c + 4)

/-- `build_tag_id_dict` as the spec words it: collect the prefix-stripped
labels excluding `"O"`, sort lexicographically, hand out consecutive ids
from 1 in prefix order B, I, U, L, and map `"O"` to 0. -/
def buildTagIdDictSpec (trainingExamples : List Msg) : List (String × Nat) :=
  let distinctTags := sortStr (dedupStr
    (((trainingExamples.flatMap exampleBilouTags).map entityNameFromTag).filter
      (fun t => t ≠ "O")))
  assignIds distinctTags 1 ++ [("O", 0)]

/-- `bilou_utils.tags_to_ids`: map the message's BILOU tags through the
dict, defaulting unknown tags to the id of `"O"`; when the message's
`bilou_entities` is falsy, emit the id of `"O"` once per text token
(raising — `none` — if the tokens are absent too, or if `"O"` itself is not
a key when needed). -/
def tagsToIds (m : Msg) (tagIdDict : List (String × Nat)) : Option (List Nat) :=
  if exampleBilouTags m ≠ [] then
    optionMapList (fun tag =>
      match tagIdDict.lookup tag with
      | some v => some v
      | none => tagIdDict.lookup "O") (exampleBilouTags m)
  else
    match m.tokens with
    | none => none
    | some ts => optionMapList (fun _ => tagIdDict.lookup "O") ts

/-! ## Helper lemmas -/

/-- Digits are word characters. -/
theorem isWordChar_of_isDigit {c : Char} (h : c.isDigit = true) :
    isWordChar c = true := by
  simp [isWordChar, Char.isAlphanum, h]

/-- On a suffix made entirely of word characters, the substitution walk just
extends the current run. -/
theorem subNumberAux_all_word :
    ∀ (cs acc : List Char), cs.all isWordChar = true →
      subNumberAux acc cs = emitRun (cs.reverse ++ acc) := by
  intro cs
  induction cs with
  | nil => intro acc _; simp [subNumberAux]
  | cons c cs ih =>
    intro acc h
    simp only [List.all_cons, Bool.and_eq_true] at h
    simp only [subNumberAux, h.1, if_true, ih (c :: acc) h.2, List.reverse_cons,
      List.append_assoc, List.cons_append, List.nil_append]

/-- A nonempty all-digit input is tokenized to the single `__NUMBER__` token. -/
theorem digits_tokens (s : String) (h1 : s.data ≠ [])
    (h2 : s.data.all Char.isDigit = true) :
    findallWordTokens (reSubNumber s) = ["__NUMBER__"] := by
  have hw : s.data.all isWordChar = true := by
    rw [List.all_eq_true] at h2 ⊢
    exact fun c hc => isWordChar_of_isDigit (h2 c hc)
  have hsub : reSubNumber s = "__NUMBER__" := by
    show (⟨subNumberAux [] s.data⟩ : String) = "__NUMBER__"
    rw [subNumberAux_all_word s.data [] hw]
    simp [emitRun, h1, h2]
  rw [hsub]
  decide

/-- Claim C7: the custom word-mode tokenizer first collapses every whole
digit-only token to `__NUMBER__` (so any two purely numeric inputs tokenize
identically, e.g. `"42"` and `"7"`), then extracts tokens with the word
pattern; with a trained vocabulary visible and the OOV marker in it, every
out-of-vocabulary token becomes the marker; with the marker absent from the
vocabulary, tokens are left unmodified; with no vocabulary built and a
nonempty OOV word list, exactly the listed words become the marker. -/
theorem claim_C7 :
    (∀ s : String, s.data ≠ [] → s.data.all Char.isDigit = true →
      ∀ (ot : Option String) (voc : Option (List String)) (ws : List String),
        tokenizer ot voc ws s = tokenizer ot voc ws "7")
    ∧ (∀ (oov : String) (voc : List String) (ws : List String) (text : String),
        oov ≠ "" → oov ∈ voc →
        tokenizer (some oov) (some voc) ws text =
          (findallWordTokens (reSubNumber text)).map
            (fun t => if t ∈ voc then t else oov))
    ∧ (∀ (oov : String) (voc : List String) (ws : List String) (text : String),
        oov ≠ "" → oov ∉ voc →
        tokenizer (some oov) (some voc) ws text =
          findallWordTokens (reSubNumber text))
    ∧ (∀ (oov : String) (ws : List String) (text : String),
        oov ≠ "" → ws ≠ [] →
        tokenizer (some oov) none ws text =
          (findallWordTokens (reSubNumber text)).map
            (fun t => if t ∈ ws then oov else t)) := by
  refine ⟨?_, ?_, ?_, ?_⟩
  · intro s h1 h2 ot voc ws
    have hs := digits_tokens s h1 h2
    have h7 : findallWordTokens (reSubNumber "7") = ["__NUMBER__"] := by decide
    simp only [tokenizer, hs, h7]
  · intro oov voc ws text h1 h2
    simp [tokenizer, h1, h2]
  · intro oov voc ws text h1 h2
    simp [tokenizer, h1, h2]
  · intro oov ws text h1 h2
    simp [tokenizer, h1, h2]

/-- Witness for C7 at concrete inputs: `"42"` behaves like `"7"`, and OOV
substitution on a trained vocabulary containing the marker. -/
theorem claim_C7_witness :
    tokenizer (some "oov") (some ["hello", "oov"]) [] "42" =
        tokenizer (some "oov") (some ["hello", "oov"]) [] "7"
      ∧ tokenizer (some "oov") (some ["hello", "oov"]) [] "hello zzz" =
        ["hello", "oov"] := by
  constructor
  · exact claim_C7.1 "42" (by decide) (by decide) (some "oov")
      (some ["hello", "oov"]) []
  · rw [claim_C7.2.1 "oov" ["hello", "oov"] [] "hello zzz" (by decide) (by decide)]
    decide

/-- `setRangeAux` preserves length. -/
theorem setRangeAux_length :
    ∀ (n : Nat) (l : List String) (lo : Nat) (v : String),
      (setRangeAux l lo n v).length = l.length := by
  intro n
  induction n with
  | zero => intro l lo v; rfl
  | succ n ih => intro l lo v; rw [setRangeAux, ih, List.length_set]

/-- `handleEntities` preserves length. -/
theorem handleEntities_length (tokens : List Token) :
    ∀ (entities : List (Nat × Nat × String)) (b : List String),
      (handleEntities b entities tokens).length = b.length := by
  intro entities
  induction entities with
  | nil => intro b; rfl
  | cons ent es ih =>
    intro b
    show (handleEntities _ es tokens).length = _
    rw [ih]
    rcases hs : startPosToTokenIdx tokens ent.1 with _ | i
    · simp [hs]
    · rcases he : endPosToTokenIdx tokens ent.2.1 with _ | j
      · simp [hs, he]
      · by_cases hij : i = j
        · simp [hs, he, hij, List.length_set]
        · simp [hs, he, hij, List.length_set, setRange, setRangeAux_length]

/-- The result of `bilou_tags_from_offsets` has one tag per token. -/
theorem bilouTagsFromOffsets_length (tokens : List Token)
    (entities : List (Nat × Nat × String)) (missing : String) :
    (bilouTagsFromOffsets tokens entities missing).length = tokens.length := by
  simp [bilouTagsFromOffsets, handleNotAnEntity, List.length_zipWith,
    handleEntities_length, List.length_replicate]

/-- With no entities, no character position is covered. -/
theorem tokenIntersects_nil (t : Token) : tokenIntersects [] t = false := by
  simp [tokenIntersects, inEntityPositions]

/-- With no entities every token gets the `missing` tag. -/
theorem handleNotAnEntity_nil (missing : String) :
    ∀ (tokens : List Token),
      handleNotAnEntity (List.replicate tokens.length "-") tokens [] missing =
        List.replicate tokens.length missing := by
  intro tokens
  induction tokens with
  | nil => rfl
  | cons t ts ih =>
    have h : tokenIntersects [] t = false := tokenIntersects_nil t
    simp only [List.length_cons, List.replicate_succ, handleNotAnEntity,
      List.zipWith_cons_cons, h, Bool.false_eq_true, if_false, List.cons.injEq]
    refine ⟨trivial, ?_⟩
    simpa only [handleNotAnEntity] using ih

/-- Claim C8: `bilou_tags_from_offsets` always returns one tag per token,
and on an empty entity list every tag is `"O"`. -/
theorem claim_C8 (tokens : List Token) (entities : List (Nat × Nat × String)) :
    (bilouTagsFromOffsets tokens entities "O").length = tokens.length
    ∧ bilouTagsFromOffsets tokens [] "O" = List.replicate tokens.length "O" := by
  constructor
  · exact bilouTagsFromOffsets_length tokens entities "O"
  · show handleNotAnEntity (handleEntities _ [] tokens) tokens [] "O" = _
    exact handleNotAnEntity_nil "O" tokens

/-- A Python list comprehension whose body never raises yields the mapped
list. -/
theorem optionMapList_some_of (f : α → Option β) (g : α → β) :
    ∀ l : List α, (∀ a ∈ l, f a = some (g a)) →
      optionMapList f l = some (l.map g) := by
  intro l
  induction l with
  | nil => intro _; rfl
  | cons a as ih =>
    intro h
    have ha := h a (List.mem_cons_self a as)
    have has := ih (fun x hx => h x (List.mem_cons_of_mem a hx))
    simp [optionMapList, ha, has]

/-- Claim C9: with `"O"` a key of the dictionary, `tags_to_ids` never
raises: known tags map to their ids, unknown tags (including the `-`
sentinel) map to the id of `"O"`, and a message with no (or an empty) BILOU
annotation yields the id of `"O"` once per text token. -/
theorem claim_C9 (m : Msg) (tagIdDict : List (String × Nat)) (o : Nat)
    (hO : tagIdDict.lookup "O" = some o) :
    (∀ tags : List String, m.bilouEntities = some tags → tags ≠ [] →
      tagsToIds m tagIdDict =
        some (tags.map (fun tag => (tagIdDict.lookup tag).getD o)))
    ∧ ((m.bilouEntities = none ∨ m.bilouEntities = some []) →
      ∀ ts : List Token, m.tokens = some ts →
        tagsToIds m tagIdDict = some (List.replicate ts.length o)) := by
  constructor
  · intro tags hb hne
    have hex : exampleBilouTags m = tags := by simp [exampleBilouTags, hb]
    have hmap : optionMapList (fun tag =>
        match tagIdDict.lookup tag with
        | some v => some v
        | none => tagIdDict.lookup "O") tags =
        some (tags.map (fun tag => (tagIdDict.lookup tag).getD o)) := by
      apply optionMapList_some_of
      intro tag _
      rcases h : tagIdDict.lookup tag with _ | v
      · simpa [h] using hO
      · simp [h]
    simp only [tagsToIds, hex]
    rw [if_pos hne]
    exact hmap
  · intro hb ts hts
    have hex : exampleBilouTags m = [] := by
      rcases hb with h | h <;> simp [exampleBilouTags, h]
    have hmap : optionMapList (fun _ => tagIdDict.lookup "O") ts =
        some (ts.map (fun _ => o)) :=
      optionMapList_some_of _ (fun _ => o) ts (fun a _ => hO)
    simp only [tagsToIds, hex, ne_eq, not_true_eq_false, if_false, hts]
    rw [hmap, List.map_const']

/-- Witness for C9: a dictionary with `"O"` and one real tag, a message
whose tags include the sentinel and an unknown tag. -/
theorem claim_C9_witness :
    tagsToIds
      { text := "x"
        tokens := none
        spacyDoc := none
        intentTokens := none
        responseTokens := none
        entities := []
        bilouEntities := some ["-", "B-loc", "Z"]
        textFeatures := none
        intentFeatures := none
        responseFeatures := none }
      [("O", 0), ("B-loc", 1)] = some [0, 1, 0] := by
  rw [(claim_C9 _ [("O", 0), ("B-loc", 1)] 0 (by decide)).1
    ["-", "B-loc", "Z"] rfl (by decide)]
  decide

/-- A message with no intent-token annotation, for C10. -/
def msgNoIntent : Msg :=
  { text := "hi"
    tokens := none
    spacyDoc := none
    intentTokens := none
    responseTokens := none
    entities := []
    bilouEntities := none
    textFeatures := none
    intentFeatures := none
    responseFeatures := none }

/-- Counterexample to C10 as stated: on a message carrying no intent-token
annotation, `_get_message_intent` does not produce the empty string — the
`message.get` result is the absent marker and iterating it raises
(`none` in the model). -/
theorem claim_C10_counterexample :
    getMessageIntent msgNoIntent ≠ some "" ∧ getMessageIntent msgNoIntent = none := by
  decide

/-- Claim C10 (amended): `_get_message_intent` joins the intent-token texts
with single spaces when the annotation is present, and raises (models as
`none`) when it is absent. -/
theorem claim_C10_amended (m : Msg) :
    (∀ ts : List Token, m.intentTokens = some ts →
      getMessageIntent m = some (joinSpace (ts.map Token.text)))
    ∧ (m.intentTokens = none → getMessageIntent m = none) := by
  constructor
  · intro ts h
    simp [getMessageIntent, h]
  · intro h
    simp [getMessageIntent, h]

/-- Witness for the amended C10 on a two-token intent annotation. -/
theorem claim_C10_witness :
    getMessageIntent
      { msgNoIntent with intentTokens := some [⟨"greet", 0, 5⟩, ⟨"hello", 6, 11⟩] } =
      some "greet hello" := by
  rw [(claim_C10_amended _).1 [⟨"greet", 0, 5⟩, ⟨"hello", 6, 11⟩] rfl]
  decide

/-- The dict comprehension's arithmetic id assignment
(`idx_label * 4 + idx_prefix + 1`) coincides with handing out consecutive
ids from a running counter. -/
theorem enumFrom_flatMap_assignIds :
    ∀ (ls : List String) (k : Nat),
      (List.enumFrom k ls).flatMap (fun p =>
        (List.enumFrom 0 bilouPrefixes).map (fun q =>
          (q.2 ++ p.2, p.1 * bilouPrefixes.length + q.1 + 1))) =
      assignIds ls (4 * k + 1) := by
  intro ls
  induction ls with
  | nil => intro k; rfl
  | cons l ls ih =>
    intro k
    have harith : 4 * (k + 1) + 1 = 4 * k + 1 + 4 := by ring
    have hblock : (List.enumFrom 0 bilouPrefixes).map
        (fun q => (q.2 ++ l, k * bilouPrefixes.length + q.1 + 1)) =
        [("B-" ++ l, 4 * k + 1), ("I-" ++ l, 4 * k + 1 + 1),
          ("U-" ++ l, 4 * k + 1 + 2), ("L-" ++ l, 4 * k + 1 + 3)] := by
      simp only [bilouPrefixes, List.enumFrom, List.map_cons, List.map_nil,
        List.length_cons, List.length_nil, List.cons.injEq, Prod.mk.injEq,
        true_and, and_true]
      omega
    show ((List.enumFrom 0 bilouPrefixes).map
        (fun q => (q.2 ++ l, k * bilouPrefixes.length + q.1 + 1))) ++
      ((List.enumFrom (k + 1) ls).flatMap (fun p =>
        (List.enumFrom 0 bilouPrefixes).map (fun q =>
          (q.2 ++ p.2, p.1 * bilouPrefixes.length + q.1 + 1)))) =
      assignIds (l :: ls) (4 * k + 1)
    rw [hblock, ih (k + 1), harith]
    rfl

/-- Every key `assignIds` produces is a two-character prefix glued onto a
label, hence never the one-character key `"O"`. -/
theorem assignIds_keys_ne_O :
    ∀ (ls : List String) (c : Nat) (kv : String × Nat),
      kv ∈ assignIds ls c → kv.1 ≠ "O" := by
  intro ls
  induction ls with
  | nil => intro c kv h; cases h
  | cons l ls ih =>
    intro c kv h
    have hlen : ∀ pre : String, pre.length = 2 → pre ++ l ≠ "O" := by
      intro pre hpre heq
      have := congrArg String.length heq
      rw [String.length_append, hpre] at this
      have hO : ("O" : String).length = 1 := rfl
      rw [hO] at this
      omega
    simp only [assignIds, List.mem_cons] at h
    rcases h with h | h | h | h | h
    · exact h ▸ hlen "B-" rfl
    · exact h ▸ hlen "I-" rfl
    · exact h ▸ hlen "U-" rfl
    · exact h ▸ hlen "L-" rfl
    · exact ih (c + 4) kv h

/-- Looking a key up past an association-list block that never holds it. -/
theorem lookup_skip_block (key : String) :
    ∀ (ps rest : List (String × Nat)), (∀ kv ∈ ps, kv.1 ≠ key) →
      (ps ++ rest).lookup key = rest.lookup key := by
  intro ps
  induction ps with
  | nil => intro rest _; rfl
  | cons a ps ih =>
    intro rest h
    have ha : (key == a.1) = false := by
      have := h a (List.mem_cons_self a ps)
      simp [Ne.symm this]
    rcases a with ⟨k, v⟩
    simp only [List.cons_append, List.lookup_cons, ha]
    exact ih rest (fun kv hkv => h kv (List.mem_cons_of_mem _ hkv))

/-- Claim C5: `build_tag_id_dict` computes the dictionary the spec words —
sorted distinct prefix-stripped labels excluding `"O"`, consecutive ids from
1 in prefix order B, I, U, L — always maps `"O"` to 0, and is deterministic
(a second run on the same corpus gives the same dictionary). -/
theorem claim_C5 (trainingExamples : List Msg) :
    buildTagIdDict trainingExamples = buildTagIdDictSpec trainingExamples
    ∧ (buildTagIdDict trainingExamples).lookup "O" = some 0
    ∧ buildTagIdDict trainingExamples = buildTagIdDict trainingExamples := by
  have heq : buildTagIdDict trainingExamples = buildTagIdDictSpec trainingExamples := by
    simp only [buildTagIdDict, buildTagIdDictSpec, List.enum_eq_enumFrom]
    rw [enumFrom_flatMap_assignIds]
  refine ⟨heq, ?_, rfl⟩
  rw [heq]
  show (assignIds _ 1 ++ [("O", 0)]).lookup "O" = some 0
  rw [lookup_skip_block "O" _ _ (fun kv hkv => assignIds_keys_ne_O _ 1 kv hkv)]
  rfl

/-- Every transformed row has one slot per vocabulary term. -/
theorem transform_length (cv : CV) (vis : Option (List String)) (doc : String) :
    (cv.transform vis doc).length = (cv.vocab.getD []).length := by
  simp [CV.transform]

/-- Every member of a batch is at most the batch maximum. -/
theorem le_maxTokenLen :
    ∀ (toks : List (List String)) (t : List String), t ∈ toks →
      t.length ≤ maxTokenLen toks := by
  intro toks
  induction toks with
  | nil => intro t h; cases h
  | cons a as ih =>
    intro t h
    rcases List.mem_cons.mp h with h | h
    · subst h; exact Nat.le_max_left _ _
    · exact Nat.le_trans (ih t h) (Nat.le_max_right _ _)

/-- Claim C6: in dense sequence mode a nonempty batch yields one matrix per
example, each padded to the batch's maximum whitespace-token count with rows
of `-1` in every vocabulary slot beyond the example's own token count; in
sparse sequence mode each example yields its unpadded matrix with exactly
one count row per token. -/
theorem claim_C6 (cv : CV) (vis : Option (List String)) (texts : List String)
    (hne : texts ≠ []) :
    (∃ X, createSequenceDense cv vis texts = .ok X ∧ X.length = texts.length ∧
      ∀ i, ∀ hi : i < texts.length, ∃ m, X[i]? = some m ∧
        m.length = maxTokenLen (texts.map splitWs) ∧
        (∀ row ∈ m, row.length = (cv.vocab.getD []).length) ∧
        (∀ j, (splitWs (texts.get ⟨i, hi⟩)).length ≤ j →
          j < maxTokenLen (texts.map splitWs) →
          m[j]? = some (List.replicate (cv.vocab.getD []).length (-1 : Int))))
    ∧ (createSequenceSparse cv vis texts).length = texts.length
    ∧ (∀ i, ∀ hi : i < texts.length, ∃ ms,
        (createSequenceSparse cv vis texts)[i]? = some ms ∧
        ms.length = (splitWs (texts.get ⟨i, hi⟩)).length ∧
        ∀ row ∈ ms, row.length = (cv.vocab.getD []).length) := by
  refine ⟨?_, ?_, ?_⟩
  · have hD : createSequenceDense cv vis texts =
        .ok ((texts.map splitWs).map (fun ts =>
          ts.map (fun w => (cv.transform vis w).map Int.ofNat) ++
            List.replicate (maxTokenLen (texts.map splitWs) - ts.length)
              (List.replicate (cv.vocab.getD []).length (-1 : Int)))) := by
      simp [createSequenceDense, hne]
    refine ⟨_, hD, ?_, ?_⟩
    · simp [List.length_map]
    · intro i hi
      have hti : texts[i]? = some (texts.get ⟨i, hi⟩) := by
        simp [List.getElem?_eq_getElem hi]
      have hmem : splitWs (texts.get ⟨i, hi⟩) ∈ texts.map splitWs := by
        exact List.mem_map.mpr ⟨texts.get ⟨i, hi⟩, List.get_mem texts i hi, rfl⟩
      have hle := le_maxTokenLen (texts.map splitWs) _ hmem
      refine ⟨(splitWs (texts.get ⟨i, hi⟩)).map
          (fun w => (cv.transform vis w).map Int.ofNat) ++
        List.replicate
          (maxTokenLen (texts.map splitWs) - (splitWs (texts.get ⟨i, hi⟩)).length)
          (List.replicate (cv.vocab.getD []).length (-1 : Int)), ?_, ?_, ?_, ?_⟩
      · simp only [List.getElem?_map, hti, Option.map_some']
      · simp only [List.length_append, List.length_map, List.length_replicate]
        omega
      · intro row hrow
        rcases List.mem_append.mp hrow with h | h
        · rcases List.mem_map.mp h with ⟨w, _, hw⟩
          rw [← hw]
          simp [transform_length]
        · rw [(List.mem_replicate.mp h).2]
          simp [List.length_replicate]
      · intro j hj1 hj2
        rw [List.getElem?_append_right (by simpa using hj1)]
        rw [List.getElem?_replicate]
        rw [if_pos (by simp only [List.length_map]; omega)]
  · simp [createSequenceSparse, List.length_map]
  · intro i hi
    have hti : texts[i]? = some (texts.get ⟨i, hi⟩) := by
      simp [List.getElem?_eq_getElem hi]
    refine ⟨(splitWs (texts.get ⟨i, hi⟩)).map (fun w => cv.transform vis w),
      ?_, ?_, ?_⟩
    · simp only [createSequenceSparse, List.getElem?_map, hti, Option.map_some']
    · simp [List.length_map]
    · intro row hrow
      rcases List.mem_map.mp hrow with ⟨w, _, hw⟩
      rw [← hw]
      exact transform_length cv vis w

/-- Witness for C6 on a two-example batch of token lengths 2 and 3 over a
two-term vocabulary. -/
theorem claim_C6_witness :
    ∃ X, createSequenceDense
        { lowercase := true, min_df := 1, oovToken := none, oovWords := [],
          vocab := some ["aa", "bb"] } none ["aa bb", "aa aa bb"] = .ok X ∧
      X.length = 2 := by
  obtain ⟨⟨X, h1, h2, _⟩, _, _⟩ := claim_C6
    { lowercase := true, min_df := 1, oovToken := none, oovWords := [],
      vocab := some ["aa", "bb"] } none ["aa bb", "aa aa bb"] (by decide)
  exact ⟨X, h1, by rw [h2]; rfl⟩

/-- Claim C2: when a fit step raises the empty-vocabulary error, `train`
returns normally with the component in the failed state (`self.vect = None`)
and writes no features to any training example; every subsequent `process`
call on that state logs an error, leaves the message untouched, and never
raises. -/
theorem claim_C2 (cfg : Config) (examples : List Msg) (lemInts : List String)
    (e : Unit)
    (hmi : optionMapList getMessageIntent examples = some lemInts)
    (hfit : trainFit cfg (examples.map getMessageText) lemInts
      (examples.map getMessageResponse) = .error e) :
    train cfg examples = some (VectState.noneV, examples)
    ∧ ∀ (flag : Bool) (m : Msg) (td : Option (List Msg)),
        process cfg VectState.noneV flag m td = some ⟨m, flag, none, true⟩ := by
  constructor
  · simp only [train, hmi, hfit]
  · intro flag m td
    rfl

/-- A separate-vocabulary, dense, non-sequence configuration with
`min_df = 2`. -/
def cfgMinDfTwo : Config :=
  { sequence := false
    use_shared_vocab := false
    sparse := false
    lowercase := true
    min_df := 2
    OOV_token := none
    OOV_words := [] }

/-- A one-example corpus: text `"hello"`, intent `"greet"`, response
`"world again"`. -/
def exGreet : Msg :=
  { text := "hello"
    tokens := none
    spacyDoc := none
    intentTokens := some [⟨"greet", 0, 5⟩]
    responseTokens := some [⟨"world", 0, 5⟩, ⟨"again", 6, 11⟩]
    entities := []
    bilouEntities := none
    textFeatures := none
    intentFeatures := none
    responseFeatures := none }

/-- Witness for C2: on a single-example corpus every term has document
frequency 1, below `min_df = 2`, so the first fit raises; `train` returns
the failed state with the example untouched and `process` degrades to a
logged error. -/
theorem claim_C2_witness :
    train cfgMinDfTwo [exGreet] = some (VectState.noneV, [exGreet])
    ∧ process cfgMinDfTwo VectState.noneV false exGreet none =
        some ⟨exGreet, false, none, true⟩ := by
  obtain ⟨h1, h2⟩ := claim_C2 cfgMinDfTwo [exGreet] ["greet"] () (by decide) rfl
  exact ⟨h1, h2 false exGreet none⟩

/-- Claim C4 (amended): only the dense non-sequence mode combines
`text_features` with a pre-existing value (concatenating onto an existing
dense vector), in both `train`'s write-back and `process`; in sparse or
sequence mode — in the write-back loop, and in every sparse/sequence branch
of `process` (non-sequence sparse, dense sequence, sparse sequence) —
`text_features` is plainly set to the fresh value, independent of any
pre-existing one, and `intent_features` and `response_features` are always
plainly overwritten. -/
theorem claim_C4_amended :
    (∀ (cfg : Config) (m : Msg) (x y r : Feat),
      cfg.sequence = false → cfg.sparse = false →
      (setOne cfg m x y r).textFeatures =
        some (combineWithExistingTextFeatures m.textFeatures x))
    ∧ (∀ o n : List Nat,
      combineWithExistingTextFeatures (some (Feat.vec o)) (Feat.vec n) =
        Feat.vec (o ++ n))
    ∧ (∀ (cfg : Config) (m : Msg) (x y r : Feat),
      cfg.sequence = true ∨ cfg.sparse = true →
      (setOne cfg m x y r).textFeatures = some x)
    ∧ (∀ (cfg : Config) (m : Msg) (x y r : Feat),
      (setOne cfg m x y r).intentFeatures = some y ∧
      (setOne cfg m x y r).responseFeatures = some r)
    ∧ (∀ (cfg : Config) (v : VectState) (flag : Bool) (m : Msg),
      cfg.sequence = false → cfg.sparse = false → v ≠ VectState.noneV →
      ∃ res, process cfg v flag m none = some res ∧
        res.message.textFeatures = some (combineWithExistingTextFeatures
          m.textFeatures
          (Feat.vec ((vect0 v).transform (visOf v) (getMessageText m)))))
    ∧ (∀ (cfg : Config) (v : VectState) (flag : Bool) (m : Msg),
      cfg.sequence = false → cfg.sparse = true → v ≠ VectState.noneV →
      ∃ res, process cfg v flag m none = some res ∧
        res.message.textFeatures = some
          (Feat.sparseVec ((vect0 v).transform (visOf v) (getMessageText m))))
    ∧ (∀ (cfg : Config) (v : VectState) (flag : Bool) (m : Msg),
      cfg.sequence = true → cfg.sparse = false → v ≠ VectState.noneV →
      ∃ res, process cfg v flag m none = some res ∧
        res.message.textFeatures = some (Feat.seqDense
          (match createSequenceDense (vect0 v) (visOf v) [getMessageText m] with
           | .ok l => l.headD []
           | .error _ => [])))
    ∧ (∀ (cfg : Config) (v : VectState) (flag : Bool) (m : Msg),
      cfg.sequence = true → cfg.sparse = true → v ≠ VectState.noneV →
      ∃ res, process cfg v flag m none = some res ∧
        res.message.textFeatures = some (Feat.seqSparseBatch
          (createSequenceSparse (vect0 v) (visOf v) [getMessageText m]))) := by
  refine ⟨?_, ?_, ?_, ?_, ?_, ?_, ?_, ?_⟩
  · intro cfg m x y r hseq hsp
    simp [setOne, hseq, hsp]
  · intro o n
    rfl
  · intro cfg m x y r h
    rcases h with h | h <;> simp [setOne, h]
  · intro cfg m x y r
    exact ⟨rfl, rfl⟩
  · intro cfg v flag m hseq hsp hv
    cases v with
    | noneV => exact absurd rfl hv
    | shared cv =>
      exact ⟨_, rfl, by simp [processMessageFeat, hseq, hsp, vect0, visOf]⟩
    | pair cv0 cv1 =>
      exact ⟨_, rfl, by simp [processMessageFeat, hseq, hsp, vect0, visOf]⟩
  · intro cfg v flag m hseq hsp hv
    cases v with
    | noneV => exact absurd rfl hv
    | shared cv =>
      exact ⟨_, rfl, by simp [processMessageFeat, hseq, hsp, vect0, visOf]⟩
    | pair cv0 cv1 =>
      exact ⟨_, rfl, by simp [processMessageFeat, hseq, hsp, vect0, visOf]⟩
  · intro cfg v flag m hseq hsp hv
    cases v with
    | noneV => exact absurd rfl hv
    | shared cv =>
      exact ⟨_, rfl, by simp [processMessageFeat, hseq, hsp, vect0, visOf]⟩
    | pair cv0 cv1 =>
      exact ⟨_, rfl, by simp [processMessageFeat, hseq, hsp, vect0, visOf]⟩
  · intro cfg v flag m hseq hsp hv
    cases v with
    | noneV => exact absurd rfl hv
    | shared cv =>
      exact ⟨_, rfl, by simp [processMessageFeat, hseq, hsp, vect0, visOf]⟩
    | pair cv0 cv1 =>
      exact ⟨_, rfl, by simp [processMessageFeat, hseq, hsp, vect0, visOf]⟩

/-- A separate-vocabulary, sparse, non-sequence configuration. -/
def cfgSparseSep : Config :=
  { sequence := false
    use_shared_vocab := false
    sparse := true
    lowercase := true
    min_df := 1
    OOV_token := none
    OOV_words := [] }

/-- `exGreet` with a pre-existing dense `text_features` vector. -/
def exGreetPre : Msg := { exGreet with textFeatures := some (Feat.vec [7]) }

/-- Counterexample to C4 as stated: in sparse non-sequence mode `train`
silently overwrites the pre-existing `text_features` value `vec [7]` with
the fresh sparse counts — no combination happens. -/
theorem claim_C4_counterexample :
    ((train cfgSparseSep [exGreetPre]).map
        (fun p => p.2.map (fun m => m.textFeatures))) =
      some [some (Feat.sparseVec [1])]
    ∧ exGreetPre.textFeatures = some (Feat.vec [7])
    ∧ Feat.sparseVec [1] ≠ Feat.vec [7] := by
  decide

/-- A dense non-sequence configuration for the C4 witness. -/
def cfgDenseSep : Config :=
  { sequence := false
    use_shared_vocab := false
    sparse := false
    lowercase := true
    min_df := 1
    OOV_token := none
    OOV_words := [] }

/-- Witness for the amended C4: the dense non-sequence write-back
concatenates onto the pre-existing vector. -/
theorem claim_C4_witness :
    (setOne cfgDenseSep exGreetPre (Feat.vec [3]) (Feat.vec [0])
        (Feat.vec [0])).textFeatures = some (Feat.vec [7, 3]) := by
  rw [claim_C4_amended.1 cfgDenseSep exGreetPre (Feat.vec [3]) (Feat.vec [0])
    (Feat.vec [0]) rfl rfl]
  decide

/-- A successful Python list comprehension has one result per element. -/
theorem optionMapList_length (f : α → Option β) :
    ∀ (l : List α) (l' : List β),
      optionMapList f l = some l' → l'.length = l.length := by
  intro l
  induction l with
  | nil =>
    intro l' h
    simp only [optionMapList, Option.some.injEq] at h
    subst h
    rfl
  | cons a as ih =>
    intro l' h
    simp only [optionMapList] at h
    rcases hfa : f a with _ | b <;> rw [hfa] at h
    · simp at h
    · rcases hrest : optionMapList f as with _ | bs <;> rw [hrest] at h
      · simp at h
      · simp only [Option.some.injEq] at h
        subst h
        simp [ih bs hrest]

/-- The write-back loop returns one message per input example. -/
theorem setFeatures_length (cfg : Config) :
    ∀ (ms : List Msg) (xs ys rs : List Feat),
      (setFeatures cfg ms xs ys rs).length = ms.length := by
  intro ms
  induction ms with
  | nil => intro xs ys rs; cases xs <;> cases ys <;> cases rs <;> rfl
  | cons m ms ih =>
    intro xs ys rs
    cases xs with
    | nil => rfl
    | cons x xs =>
      cases ys with
      | nil => rfl
      | cons y ys =>
        cases rs with
        | nil => rfl
        | cons r rs => simp [setFeatures, ih]

/-- Pointwise view of the write-back loop on equal-length lists. -/
theorem setFeatures_getElem? (cfg : Config) :
    ∀ (ms : List Msg) (xs ys rs : List Feat) (i : Nat),
      ms.length = xs.length → ms.length = ys.length → ms.length = rs.length →
      (setFeatures cfg ms xs ys rs)[i]? =
        match ms[i]?, xs[i]?, ys[i]?, rs[i]? with
        | some m, some x, some y, some r => some (setOne cfg m x y r)
        | _, _, _, _ => none := by
  intro ms
  induction ms with
  | nil =>
    intro xs ys rs i h1 h2 h3
    have hx : xs = [] := List.length_eq_zero.mp h1.symm
    have hy : ys = [] := List.length_eq_zero.mp h2.symm
    have hr : rs = [] := List.length_eq_zero.mp h3.symm
    subst hx; subst hy; subst hr
    simp [setFeatures]
  | cons m ms ih =>
    intro xs ys rs i h1 h2 h3
    cases xs with
    | nil => simp at h1
    | cons x xs =>
      cases ys with
      | nil => simp at h2
      | cons y ys =>
        cases rs with
        | nil => simp at h3
        | cons r rs =>
          cases i with
          | zero => simp [setFeatures]
          | succ i =>
            simp only [setFeatures, List.getElem?_cons_succ]
            exact ih xs ys rs i (by simpa using h1) (by simpa using h2)
              (by simpa using h3)

/-- Claim C1 (amended): in separate-vocabulary non-sequence mode `train`
runs `fit_transform` on vectorizer 1 twice — intent features are counts
over the intent-channel vocabulary (`cv1a`), but the response channel then
RE-FITS vectorizer 1 (`cv1b`), so response features are counts over the
vocabulary built from the response channel, and the component keeps the
response-fitted vectorizer as `self.vect[1]`. -/
theorem claim_C1_amended (cfg : Config) (examples : List Msg)
    (lemInts : List String) (cv0 cv1a cv1b : CV)
    (hseq : cfg.sequence = false) (hsh : cfg.use_shared_vocab = false)
    (hmi : optionMapList getMessageIntent examples = some lemInts)
    (hf0 : (initCV cfg).fit none (examples.map getMessageText) = .ok cv0)
    (hf1 : (initCV cfg).fit none lemInts = .ok cv1a)
    (hf2 : cv1a.fit none (examples.map getMessageResponse) = .ok cv1b) :
    ∃ msgs, train cfg examples = some (VectState.pair cv0 cv1b, msgs) ∧
      msgs.length = examples.length ∧
      ∀ i, ∀ hi : i < examples.length,
        (msgs[i]?.map Msg.responseFeatures) =
          some (some (wrapBag cfg (cv1b.transform none
            (getMessageResponse (examples.get ⟨i, hi⟩))))) ∧
        ∃ s, lemInts[i]? = some s ∧
          (msgs[i]?.map Msg.intentFeatures) =
            some (some (wrapBag cfg (cv1a.transform none s))) := by
  have hlen := optionMapList_length getMessageIntent examples lemInts hmi
  have htrain : train cfg examples = some (VectState.pair cv0 cv1b,
      setFeatures cfg examples
        ((examples.map getMessageText).map
          (fun t => wrapBag cfg (cv0.transform none t)))
        (lemInts.map (fun t => wrapBag cfg (cv1a.transform none t)))
        ((examples.map getMessageResponse).map
          (fun t => wrapBag cfg (cv1b.transform none t)))) := by
    simp only [train, hmi, trainFit, hseq, hsh, hf0, hf1, hf2]
  refine ⟨_, htrain, setFeatures_length cfg examples _ _ _, ?_⟩
  intro i hi
  have hil : i < lemInts.length := by omega
  have hex : examples[i]? = some (examples.get ⟨i, hi⟩) := by
    simp [List.getElem?_eq_getElem hi]
  have hxs : ((examples.map getMessageText).map
      (fun t => wrapBag cfg (cv0.transform none t)))[i]? =
      some (wrapBag cfg (cv0.transform none
        (getMessageText (examples.get ⟨i, hi⟩)))) := by
    simp [List.getElem?_map, hex]
  have hys : (lemInts.map (fun t => wrapBag cfg (cv1a.transform none t)))[i]? =
      some (wrapBag cfg (cv1a.transform none (lemInts.get ⟨i, hil⟩))) := by
    simp [List.getElem?_map, List.getElem?_eq_getElem hil]
  have hrs : ((examples.map getMessageResponse).map
      (fun t => wrapBag cfg (cv1b.transform none t)))[i]? =
      some (wrapBag cfg (cv1b.transform none
        (getMessageResponse (examples.get ⟨i, hi⟩)))) := by
    simp [List.getElem?_map, hex]
  rw [setFeatures_getElem? cfg examples _ _ _ i (by simp) (by simp [hlen])
    (by simp), hex, hxs, hys, hrs]
  constructor
  · rfl
  · exact ⟨lemInts.get ⟨i, hil⟩, by simp [List.getElem?_eq_getElem hil], rfl⟩

/-- The vectorizer state fitted on the intent channel `["greet"]`. -/
def cvIntentW : CV :=
  { lowercase := true, min_df := 1, oovToken := none, oovWords := [],
    vocab := some ["greet"] }

/-- The vectorizer state after the re-fit on the response channel. -/
def cvRespW : CV := { cvIntentW with vocab := some ["again", "world"] }

/-- The vectorizer state fitted on the message-text channel. -/
def cvTextW : CV := { cvIntentW with vocab := some ["hello"] }

/-- Counterexample to C1 as stated: training `exGreet` in separate-vocab
non-sequence mode stores response features `[1, 1]` — counts over the
response-channel vocabulary `["again", "world"]` — while the intent-fitted
vectorizer 1 (vocabulary `["greet"]`) would transform the response text to
`[0]`. -/
theorem claim_C1_counterexample :
    ((train cfgDenseSep [exGreet]).map
        (fun p => p.2.map (fun m => m.responseFeatures))) =
      some [some (Feat.vec [1, 1])]
    ∧ ((initCV cfgDenseSep).fit none ["greet"]).toOption = some cvIntentW
    ∧ cvIntentW.transform none "world again" = [0]
    ∧ Feat.vec [1, 1] ≠ Feat.vec [0] := by
  decide

/-- Witness for the amended C1 at the concrete corpus: the final state keeps
the response-fitted vectorizer 1. -/
theorem claim_C1_witness :
    ∃ msgs, train cfgDenseSep [exGreet] =
        some (VectState.pair cvTextW cvRespW, msgs) ∧ msgs.length = 1 := by
  obtain ⟨msgs, h1, h2, _⟩ := claim_C1_amended cfgDenseSep [exGreet] ["greet"]
    cvTextW cvIntentW cvRespW rfl rfl (by decide) rfl rfl rfl
  exact ⟨msgs, h1, by rw [h2]; rfl⟩

/-- Folding the last-wins update over keys that never match leaves the
accumulator unchanged. -/
theorem lastAssoc_foldl_no_match (p : Nat) :
    ∀ (l : List (Nat × Nat)) (acc : Option Nat), (∀ kv ∈ l, kv.1 ≠ p) →
      l.foldl (fun acc kv => if kv.1 = p then some kv.2 else acc) acc = acc := by
  intro l
  induction l with
  | nil => intro acc _; rfl
  | cons a l ih =>
    intro acc h
    have ha := h a (List.mem_cons_self a l)
    simp only [List.foldl_cons, if_neg ha]
    exact ih acc (fun kv hkv => h kv (List.mem_cons_of_mem a hkv))

/-- Folding the last-wins update when every matching entry carries the same
value keeps that value. -/
theorem lastAssoc_foldl_const (p v : Nat) :
    ∀ l : List (Nat × Nat), (∀ kv ∈ l, kv.1 = p → kv.2 = v) →
      l.foldl (fun acc kv => if kv.1 = p then some kv.2 else acc) (some v) =
        some v := by
  intro l
  induction l with
  | nil => intro _; rfl
  | cons a l ih =>
    intro h
    by_cases ha : a.1 = p
    · have hv := h a (List.mem_cons_self a l) ha
      simp only [List.foldl_cons, if_pos ha, hv]
      exact ih (fun kv hkv hp => h kv (List.mem_cons_of_mem a hkv) hp)
    · simp only [List.foldl_cons, if_neg ha]
      exact ih (fun kv hkv hp => h kv (List.mem_cons_of_mem a hkv) hp)

/-- A dict built with no entry for `p` misses on `p`. -/
theorem lastAssoc_eq_none (l : List (Nat × Nat)) (p : Nat)
    (h : ∀ kv ∈ l, kv.1 ≠ p) : lastAssoc l p = none :=
  lastAssoc_foldl_no_match p l none h

/-- A dict whose every entry for `p` carries `v` yields `v` on `p`. -/
theorem lastAssoc_unique (p v : Nat) :
    ∀ l : List (Nat × Nat), (p, v) ∈ l →
      (∀ kv ∈ l, kv.1 = p → kv.2 = v) → lastAssoc l p = some v := by
  intro l
  induction l with
  | nil => intro hmem _; cases hmem
  | cons a l ih =>
    intro hmem huniq
    by_cases ha : a.1 = p
    · have hv : a.2 = v := huniq a (List.mem_cons_self a l) ha
      simp only [lastAssoc, List.foldl_cons, if_pos ha, hv]
      exact lastAssoc_foldl_const p v l
        (fun kv hkv hp => huniq kv (List.mem_cons_of_mem a hkv) hp)
    · have hmem' : (p, v) ∈ l := by
        rcases List.mem_cons.mp hmem with h | h
        · exact absurd (congrArg Prod.fst h.symm) ha
        · exact h
      simp only [lastAssoc, List.foldl_cons, if_neg ha]
      exact ih hmem' (fun kv hkv hp => huniq kv (List.mem_cons_of_mem a hkv) hp)

/-- Membership in the offset-to-index comprehension pairs. -/
theorem offsetPairs_mem (f : Token → Nat) :
    ∀ (ts : List Token) (k q n : Nat),
      (q, n) ∈ offsetPairs f ts k ↔
        ∃ m, ∃ hm : m < ts.length, n = k + m ∧ f (ts.get ⟨m, hm⟩) = q := by
  intro ts
  induction ts with
  | nil => intro k q n; simp [offsetPairs]
  | cons t ts ih =>
    intro k q n
    simp only [offsetPairs, List.mem_cons, ih (k + 1), Prod.mk.injEq]
    constructor
    · rintro (⟨hq, hn⟩ | ⟨m, hm, hn, hf⟩)
      · exact ⟨0, by simp, by omega, by simpa using hq.symm⟩
      · exact ⟨m + 1, by simpa using hm, by omega, by simpa using hf⟩
    · rintro ⟨m, hm, hn, hf⟩
      cases m with
      | zero => exact Or.inl ⟨by simpa using hf.symm, by omega⟩
      | succ m =>
        exact Or.inr ⟨m, by simpa using hm, by omega, by simpa using hf⟩

/-- Both offset dicts miss when no token carries the offset. -/
theorem offsetIdx_none (f : Token → Nat) (tokens : List Token) (p : Nat)
    (h : ∀ t ∈ tokens, f t ≠ p) :
    lastAssoc (offsetPairs f tokens 0) p = none := by
  apply lastAssoc_eq_none
  intro kv hkv
  obtain ⟨m, hm, _, hf⟩ := (offsetPairs_mem f tokens 0 kv.1 kv.2).mp (by simpa using hkv)
  rw [← hf]
  exact h _ (List.get_mem tokens m hm)

/-- Ordering between earlier and later tokens, from the pairwise
well-formedness of the token list. -/
theorem wf_chain (tokens : List Token)
    (hwf2 : List.Pairwise (fun a b => a.stop ≤ b.start) tokens)
    (a b : Nat) (ha : a < tokens.length) (hb : b < tokens.length)
    (hab : a < b) :
    (tokens.get ⟨a, ha⟩).stop ≤ (tokens.get ⟨b, hb⟩).start :=
  List.pairwise_iff_get.mp hwf2 ⟨a, ha⟩ ⟨b, hb⟩ hab

/-- In a well-formed token list, start offsets are distinct. -/
theorem wf_start_inj (tokens : List Token)
    (hwf1 : ∀ t ∈ tokens, t.start < t.stop)
    (hwf2 : List.Pairwise (fun a b => a.stop ≤ b.start) tokens)
    (a b : Nat) (ha : a < tokens.length) (hb : b < tokens.length)
    (heq : (tokens.get ⟨a, ha⟩).start = (tokens.get ⟨b, hb⟩).start) : a = b := by
  rcases Nat.lt_trichotomy a b with h | h | h
  · have h1 := wf_chain tokens hwf2 a b ha hb h
    have h2 := hwf1 _ (List.get_mem tokens a ha)
    omega
  · exact h
  · have h1 := wf_chain tokens hwf2 b a hb ha h
    have h2 := hwf1 _ (List.get_mem tokens b hb)
    omega

/-- In a well-formed token list, end offsets are distinct. -/
theorem wf_stop_inj (tokens : List Token)
    (hwf1 : ∀ t ∈ tokens, t.start < t.stop)
    (hwf2 : List.Pairwise (fun a b => a.stop ≤ b.start) tokens)
    (a b : Nat) (ha : a < tokens.length) (hb : b < tokens.length)
    (heq : (tokens.get ⟨a, ha⟩).stop = (tokens.get ⟨b, hb⟩).stop) : a = b := by
  rcases Nat.lt_trichotomy a b with h | h | h
  · have h1 := wf_chain tokens hwf2 a b ha hb h
    have h2 := hwf1 _ (List.get_mem tokens b hb)
    omega
  · exact h
  · have h1 := wf_chain tokens hwf2 b a hb ha h
    have h2 := hwf1 _ (List.get_mem tokens a ha)
    omega

/-- On a well-formed token list the start dict resolves a token's start
offset to that token's index. -/
theorem startIdx_eq (tokens : List Token)
    (hwf1 : ∀ t ∈ tokens, t.start < t.stop)
    (hwf2 : List.Pairwise (fun a b => a.stop ≤ b.start) tokens)
    (i : Nat) (hi : i < tokens.length) :
    startPosToTokenIdx tokens ((tokens.get ⟨i, hi⟩).start) = some i := by
  apply lastAssoc_unique
  · exact (offsetPairs_mem Token.start tokens 0 _ i).mpr ⟨i, hi, by omega, rfl⟩
  · intro kv hkv hp
    obtain ⟨m, hm, hn, hf⟩ :=
      (offsetPairs_mem Token.start tokens 0 kv.1 kv.2).mp (by simpa using hkv)
    have : m = i := wf_start_inj tokens hwf1 hwf2 m i hm hi (by rw [hf, hp])
    omega

/-- On a well-formed token list the end dict resolves a token's end offset
to that token's index. -/
theorem endIdx_eq (tokens : List Token)
    (hwf1 : ∀ t ∈ tokens, t.start < t.stop)
    (hwf2 : List.Pairwise (fun a b => a.stop ≤ b.start) tokens)
    (j : Nat) (hj : j < tokens.length) :
    endPosToTokenIdx tokens ((tokens.get ⟨j, hj⟩).stop) = some j := by
  apply lastAssoc_unique
  · exact (offsetPairs_mem Token.stop tokens 0 _ j).mpr ⟨j, hj, by omega, rfl⟩
  · intro kv hkv hp
    obtain ⟨m, hm, hn, hf⟩ :=
      (offsetPairs_mem Token.stop tokens 0 kv.1 kv.2).mp (by simpa using hkv)
    have : m = j := wf_stop_inj tokens hwf1 hwf2 m j hm hj (by rw [hf, hp])
    omega

/-- Pointwise view of the `for i in range(lo, hi)` assignment loop. -/
theorem setRangeAux_getElem? :
    ∀ (n : Nat) (l : List String) (lo : Nat) (v : String) (k : Nat),
      (setRangeAux l lo n v)[k]? =
        if lo ≤ k ∧ k < lo + n then l[k]?.map (fun _ => v) else l[k]? := by
  intro n
  induction n with
  | zero =>
    intro l lo v k
    rw [setRangeAux, if_neg (by omega)]
  | succ n ih =>
    intro l lo v k
    rw [setRangeAux, ih]
    by_cases hk : lo + 1 ≤ k ∧ k < lo + 1 + n
    · rw [if_pos hk, if_pos (by omega), List.getElem?_set, if_neg (by omega)]
    · rw [if_neg hk]
      by_cases hk2 : lo ≤ k ∧ k < lo + (n + 1)
      · have hkl : k = lo := by omega
        subst hkl
        rw [if_pos hk2, List.getElem?_set, if_pos rfl]
        by_cases hlen : k < l.length
        · rw [if_pos hlen, List.getElem?_eq_getElem hlen]
          rfl
        · rw [if_neg hlen, List.getElem?_eq_none (by omega)]
          rfl
      · rw [if_neg hk2, List.getElem?_set, if_neg (by omega)]

/-- Pointwise result of `_handle_entities` for a single entity whose offsets
both resolve to token indices. -/
theorem handleEntities_one (tokens : List Token) (s e : Nat) (lab : String)
    (i j : Nat) (hi : i < tokens.length) (hj : j < tokens.length)
    (hs : startPosToTokenIdx tokens s = some i)
    (he : endPosToTokenIdx tokens e = some j)
    (k : Nat) (hk : k < tokens.length) :
    (handleEntities (List.replicate tokens.length "-") [(s, e, lab)] tokens)[k]? =
      some (if i = j then (if k = i then "U-" ++ lab else "-")
        else if k = j then "L-" ++ lab
        else if i + 1 ≤ k ∧ k < j then "I-" ++ lab
        else if k = i then "B-" ++ lab else "-") := by
  simp only [handleEntities, List.foldl_cons, List.foldl_nil, hs, he]
  by_cases hij : i = j
  · subst hij
    rw [if_pos rfl, if_pos rfl, List.getElem?_set]
    by_cases hki : i = k
    · subst hki
      rw [if_pos rfl, if_pos (by rw [List.length_replicate]; exact hi),
        if_pos rfl]
    · rw [if_neg hki, if_neg (fun h => hki h.symm),
        List.getElem?_replicate, if_pos hk]
  · rw [if_neg hij, if_neg hij, List.getElem?_set]
    by_cases hkj : j = k
    · subst hkj
      rw [if_pos rfl, if_pos rfl]
      rw [setRange, setRangeAux_length, List.length_set, List.length_replicate]
      rw [if_pos hj]
    · rw [if_neg hkj, if_neg (fun h => hkj h.symm), setRange,
        setRangeAux_getElem?]
      by_cases hrange : i + 1 ≤ k ∧ k < j
      · rw [if_pos (by omega), if_pos hrange, List.getElem?_set,
          if_neg (by omega), List.getElem?_replicate, if_pos hk]
        rfl
      · rw [if_neg (by omega), if_neg hrange, List.getElem?_set]
        by_cases hki : i = k
        · subst hki
          rw [if_pos rfl, if_pos (by rw [List.length_replicate]; exact hi),
            if_pos rfl]
        · rw [if_neg hki, if_neg (fun h => hki h.symm),
            List.getElem?_replicate, if_pos hk]

/-- `_handle_entities` skips an entity whose offsets do not both resolve. -/
theorem handleEntities_miss (tokens : List Token) (s e : Nat) (lab : String)
    (b : List String)
    (h : startPosToTokenIdx tokens s = none ∨ endPosToTokenIdx tokens e = none) :
    handleEntities b [(s, e, lab)] tokens = b := by
  simp only [handleEntities, List.foldl_cons, List.foldl_nil]
  rcases h with h | h
  · simp [h]
  · rcases hs : startPosToTokenIdx tokens s with _ | i <;> simp [hs, h]

/-- A token shares a character with the single span `[s, e)` iff some
position lies in both half-open ranges. -/
theorem tokenIntersects_singleton (s e : Nat) (lab : String) (t : Token) :
    tokenIntersects [(s, e, lab)] t = true ↔
      ∃ x, t.start ≤ x ∧ x < t.stop ∧ s ≤ x ∧ x < e := by
  simp only [tokenIntersects, List.any_eq_true, inEntityPositions,
    List.any_cons, List.any_nil, Bool.or_false, decide_eq_true_eq,
    List.mem_range'_1]
  constructor
  · rintro ⟨x, ⟨hx1, hx2⟩, hx3, hx4⟩
    exact ⟨x, hx1, by omega, hx3, hx4⟩
  · rintro ⟨x, hx1, hx2, hx3, hx4⟩
    exact ⟨x, ⟨hx1, by omega⟩, hx3, hx4⟩

/-- On a well-formed token list, token `n` overlaps the aligned span from
token `i`'s start to token `j`'s end exactly when `i ≤ n ≤ j`. -/
theorem aligned_intersect (tokens : List Token)
    (hwf1 : ∀ t ∈ tokens, t.start < t.stop)
    (hwf2 : List.Pairwise (fun a b => a.stop ≤ b.start) tokens)
    (s e : Nat) (lab : String) (i j : Nat)
    (hi : i < tokens.length) (hj : j < tokens.length)
    (his : (tokens.get ⟨i, hi⟩).start = s)
    (hje : (tokens.get ⟨j, hj⟩).stop = e)
    (n : Nat) (hn : n < tokens.length) :
    tokenIntersects [(s, e, lab)] (tokens.get ⟨n, hn⟩) = true ↔
      i ≤ n ∧ n ≤ j := by
  rw [tokenIntersects_singleton]
  constructor
  · rintro ⟨x, hx1, hx2, hx3, hx4⟩
    constructor
    · by_contra hni
      push_neg at hni
      have hc := wf_chain tokens hwf2 n i hn hi hni
      rw [his] at hc
      omega
    · by_contra hnj
      push_neg at hnj
      have hc := wf_chain tokens hwf2 j n hj hn hnj
      rw [hje] at hc
      omega
  · rintro ⟨hin, hnj⟩
    have hsn : s ≤ (tokens.get ⟨n, hn⟩).start := by
      rcases Nat.eq_or_lt_of_le hin with h | h
      · subst h
        omega
      · have hc := wf_chain tokens hwf2 i n hi hn h
        have h2 := hwf1 _ (List.get_mem tokens i hi)
        omega
    have hne : (tokens.get ⟨n, hn⟩).start < e := by
      rcases Nat.eq_or_lt_of_le hnj with h | h
      · subst h
        have h2 := hwf1 _ (List.get_mem tokens n hn)
        omega
      · have hc := wf_chain tokens hwf2 n j hn hj h
        have h2 := hwf1 _ (List.get_mem tokens j hj)
        have h3 := hwf1 _ (List.get_mem tokens n hn)
        omega
    exact ⟨(tokens.get ⟨n, hn⟩).start, Nat.le_refl _,
      hwf1 _ (List.get_mem tokens n hn), hsn, hne⟩

/-- The BILOU tag C3 predicts for token `n` when the entity aligns with
token boundaries at token indices `i` (start) and `j` (end). -/
def expectedAlignedTag (i j n : Nat) (lab : String) : String :=
  if n < i ∨ j < n then "O"
  else if i = j then "U-" ++ lab
  else if n = i then "B-" ++ lab
  else if n = j then "L-" ++ lab
  else "I-" ++ lab

/-- Claim C3: on a well-formed token list and a singleton entity list with
`s < e`: if both offsets align with token boundaries (token `i` starts at
`s`, token `j` ends at `e`) the result is `U-` on a single token or
`B-`/`I-`/`L-` across the span with `O` elsewhere; if either offset matches
no token boundary the entity is dropped — overlapped tokens keep the `-`
sentinel, all others get `O`, and the label never appears. -/
theorem claim_C3 (tokens : List Token) (s e : Nat) (lab : String)
    (hwf1 : ∀ t ∈ tokens, t.start < t.stop)
    (hwf2 : List.Pairwise (fun a b => a.stop ≤ b.start) tokens)
    (hse : s < e) :
    (∀ i j, ∀ hi : i < tokens.length, ∀ hj : j < tokens.length,
      (tokens.get ⟨i, hi⟩).start = s → (tokens.get ⟨j, hj⟩).stop = e →
      ∀ n, n < tokens.length →
        (bilouTagsFromOffsets tokens [(s, e, lab)] "O")[n]? =
          some (expectedAlignedTag i j n lab))
    ∧ (((∀ t ∈ tokens, t.start ≠ s) ∨ (∀ t ∈ tokens, t.stop ≠ e)) →
        (∀ n, ∀ hn : n < tokens.length,
          (bilouTagsFromOffsets tokens [(s, e, lab)] "O")[n]? =
            some (if tokenIntersects [(s, e, lab)] (tokens.get ⟨n, hn⟩)
              then "-" else "O"))
        ∧ ∀ tag ∈ bilouTagsFromOffsets tokens [(s, e, lab)] "O",
            tag = "-" ∨ tag = "O") := by
  constructor
  · intro i j hi hj his hje n hn
    have hs : startPosToTokenIdx tokens s = some i := by
      rw [← his]
      exact startIdx_eq tokens hwf1 hwf2 i hi
    have he : endPosToTokenIdx tokens e = some j := by
      rw [← hje]
      exact endIdx_eq tokens hwf1 hwf2 j hj
    have hij : i ≤ j := by
      by_contra h
      push_neg at h
      have hc := wf_chain tokens hwf2 j i hj hi h
      rw [hje, his] at hc
      omega
    have hr : (bilouTagsFromOffsets tokens [(s, e, lab)] "O")[n]? =
        some (if tokenIntersects [(s, e, lab)] (tokens.get ⟨n, hn⟩)
          then (if i = j then (if n = i then "U-" ++ lab else "-")
            else if n = j then "L-" ++ lab
            else if i + 1 ≤ n ∧ n < j then "I-" ++ lab
            else if n = i then "B-" ++ lab else "-")
          else "O") := by
      rw [bilouTagsFromOffsets, handleNotAnEntity, List.getElem?_zipWith,
        handleEntities_one tokens s e lab i j hi hj hs he n hn,
        List.getElem?_eq_getElem hn]
      simp only [List.get_eq_getElem]
    rw [hr]
    have hint := aligned_intersect tokens hwf1 hwf2 s e lab i j hi hj his hje n hn
    by_cases hin : i ≤ n ∧ n ≤ j
    · rw [if_pos (hint.mpr hin)]
      simp only [expectedAlignedTag]
      split_ifs <;> first | rfl | omega
    · rw [if_neg (fun h => hin (hint.mp h))]
      simp only [expectedAlignedTag]
      rw [if_pos (by omega)]
  · intro hmiss
    have hnone : startPosToTokenIdx tokens s = none ∨
        endPosToTokenIdx tokens e = none := by
      rcases hmiss with h | h
      · exact Or.inl (offsetIdx_none Token.start tokens s h)
      · exact Or.inr (offsetIdx_none Token.stop tokens e h)
    have hbase := handleEntities_miss tokens s e lab
      (List.replicate tokens.length "-") hnone
    have hpt : ∀ n, ∀ hn : n < tokens.length,
        (bilouTagsFromOffsets tokens [(s, e, lab)] "O")[n]? =
          some (if tokenIntersects [(s, e, lab)] (tokens.get ⟨n, hn⟩)
            then "-" else "O") := by
      intro n hn
      rw [bilouTagsFromOffsets, handleNotAnEntity, hbase,
        List.getElem?_zipWith, List.getElem?_replicate, if_pos hn,
        List.getElem?_eq_getElem hn]
      simp only [List.get_eq_getElem]
    refine ⟨hpt, ?_⟩
    intro tag htag
    obtain ⟨nid, hnid⟩ := List.mem_iff_getElem?.mp htag
    have hlen : nid < tokens.length := by
      rcases List.getElem?_eq_some.mp hnid with ⟨hlt, _⟩
      rw [bilouTagsFromOffsets_length] at hlt
      exact hlt
    rw [hpt nid hlen] at hnid
    rcases htag2 : tokenIntersects [(s, e, lab)] (tokens.get ⟨nid, hlen⟩) with _ | _
    · rw [htag2] at hnid
      simp only [Bool.false_eq_true, if_false, Option.some.injEq] at hnid
      exact Or.inr hnid.symm
    · rw [htag2] at hnid
      simp only [if_true, Option.some.injEq] at hnid
      exact Or.inl hnid.symm

/-- A three-token sentence for the C3 witness. -/
def toksNYC : List Token := [⟨"new", 0, 3⟩, ⟨"york", 4, 8⟩, ⟨"city", 9, 13⟩]

/-- Witness for C3: the aligned entity `(0, 8)` over the first two tokens
yields `B-`/`L-`/`O`, and the misaligned entity `(0, 6)` leaves its
overlapped tokens at `-` with `O` elsewhere. -/
theorem claim_C3_witness :
    (bilouTagsFromOffsets toksNYC [(0, 8, "loc")] "O")[0]? = some "B-loc"
    ∧ (bilouTagsFromOffsets toksNYC [(0, 8, "loc")] "O")[1]? = some "L-loc"
    ∧ (bilouTagsFromOffsets toksNYC [(0, 8, "loc")] "O")[2]? = some "O"
    ∧ (bilouTagsFromOffsets toksNYC [(0, 6, "loc")] "O")[1]? = some "-"
    ∧ (bilouTagsFromOffsets toksNYC [(0, 6, "loc")] "O")[2]? = some "O" := by
  have hal := (claim_C3 toksNYC 0 8 "loc" (by decide) (by decide) (by decide)).1
    0 1 (by decide) (by decide) (by decide) (by decide)
  have hmiss := (claim_C3 toksNYC 0 6 "loc" (by decide) (by decide) (by decide)).2
    (Or.inr (by decide))
  refine ⟨?_, ?_, ?_, ?_, ?_⟩
  · rw [hal 0 (by decide)]; decide
  · rw [hal 1 (by decide)]; decide
  · rw [hal 2 (by decide)]; decide
  · rw [hmiss.1 1 (by decide)]; decide
  · rw [hmiss.1 2 (by decide)]; decide
